import Mathlib

/-
Verification of the note-storage and sequence engine of the omnisound repository.

The embedding below follows the Python sources:
  * src/omnisound/note/containers/note_sequence.py  (class NoteSequence)
  * src/omnisound/note/containers/measure.py        (class Measure)
  * src/omnisound/note/adapters/note.py             (attribute column layout)
  * src/aleatoric/measure.py                        (NoteDur, Meter.quantize)

Numeric note attributes (numpy float64 cells) are embedded as rationals, Python
ints as integers, and fallible operations return Except values.
-/

namespace Omnisound

/-- The Python error conditions raised by the embedded operations. -/
inductive PyErr where
  | valueError
  | indexError
  | invalidAppend
  | zeroDivision
  deriving DecidableEq, Repr

/-- NoteSequence: owns a table of note attribute rows (`self.note_attrs`, a rank-2
numpy array embedded as a list of rows) plus a list of child sequences
(`self.child_sequences`; the constructor's `None` default behaves like an empty
list in every truthiness test, and is embedded as `[]`). -/
inductive NSeq where
  | mk (noteAttrs : List (List ℚ)) (children : List NSeq)

def NSeq.noteAttrs : NSeq → List (List ℚ)
  | .mk a _ => a

def NSeq.children : NSeq → List NSeq
  | .mk _ c => c

mutual
/-- The value of `self.max_index` after `_update_range_map`, which `__len__` returns.

`__init__` sets `max_index = 0` and then calls `_update_range_map`, whose whole body
is guarded by `if self.child_sequences:` — with no children `max_index` stays 0.
With children `c0 :: cs` the method seeds the range map with the key
`len(self.note_attrs) + len(child_sequences[0])` and then runs a queue loop that
visits every descendant in depth-first preorder (each popped node has its children
spliced in front of the remaining queue), appending the key
`last_key + len(cur_seq)` for each visited node `cur_seq`; `len` of a child is that
child's own `max_index`.  Keys are therefore nondecreasing, a repeated key only
overwrites a dict entry, and the final `max_index = list(keys)[-1]` equals the
running sum below.  `rangeMapEntries` transcribes the loop itself, and the theorem
`rangeMapEntries_lastKey` proves this function agrees with it. -/
def seqLen : NSeq → ℕ
  | .mk _ [] => 0
  | .mk rows (c0 :: cs) => rows.length + seqLen c0 + dfsLenSum (c0 :: cs)
  termination_by s => sizeOf s

/-- Sum of `seqLen` over every node of the forest in depth-first preorder. -/
def dfsLenSum : List NSeq → ℕ
  | [] => 0
  | .mk rows ch :: cs => seqLen (.mk rows ch) + dfsLenSum ch + dfsLenSum cs
  termination_by l => sizeOf l
end

/-- Last key of the insertion-ordered range map (`list(self._range_map.keys())[-1]`). -/
def lastKey (es : List (ℕ × NSeq)) : ℕ :=
  (es.getLast?.map Prod.fst).getD 0

/-- Writing `self._range_map[k] = v`: a Python dict keeps the position of an
existing key and overwrites its value, otherwise appends the new pair. -/
def addEntry (es : List (ℕ × NSeq)) (k : ℕ) (v : NSeq) : List (ℕ × NSeq) :=
  if es.any (fun e => e.fst = k) then
    es.map (fun e => if e.fst = k then (k, v) else e)
  else
    es ++ [(k, v)]

/-- The queue loop of `_update_range_map`: pop the front node, append the range
entry `last_key + len(cur_seq)`, and splice the node's children in front of the
remaining queue (the source inserts each child at position 1 in reversed order and
then deletes position 0, which leaves `cur.children ++ rest`). -/
def queueLoop : List NSeq → List (ℕ × NSeq) → List (ℕ × NSeq)
  | [], es => es
  | cur :: rest, es =>
      queueLoop (cur.children ++ rest) (addEntry es (lastKey es + seqLen cur) cur)
  termination_by q _ => (q.map sizeOf).sum
  decreasing_by
    simp only [List.map_append, List.sum_append, List.map_cons, List.sum_cons]
    have h : ((cur.children.map sizeOf).sum : ℕ) < sizeOf cur := by
      obtain ⟨rows, children⟩ := cur
      simp only [NSeq.children]
      have : ∀ l : List NSeq, (l.map sizeOf).sum < sizeOf l := by
        intro l
        induction l with
        | nil => simp
        | cons a as ih => simp only [List.map_cons, List.sum_cons, List.cons.sizeOf_spec]; omega
      calc (children.map sizeOf).sum < sizeOf children := this children
        _ < sizeOf (NSeq.mk rows children) := by simp only [NSeq.mk.sizeOf_spec]; omega
    omega

/-- `self._range_map` as built by `_update_range_map`: empty (in the source: never
assigned) when there are no child sequences, otherwise seeded with
`{len(self.note_attrs) + len(child_sequences[0]): child_sequences[0]}` and filled
by the queue loop over all child sequences. -/
def rangeMapEntries (s : NSeq) : List (ℕ × NSeq) :=
  match s with
  | .mk _ [] => []
  | .mk rows (c0 :: cs) =>
      queueLoop (c0 :: cs) [(rows.length + seqLen c0, c0)]

/-- Keys of the range map never exceed the last key (insertion order is
nondecreasing in the source, since each appended key adds a nonnegative length). -/
def KeysBelowLast (es : List (ℕ × NSeq)) : Prop :=
  ∀ e ∈ es, e.fst ≤ lastKey es

/-- The value `_get_note_for_index` produces when it does not raise: either a note
view bound to a row of this sequence's own table (`self.note_cls(attrs=self.note_attrs[index],
..., row_num=index)`), or a note built from a child-sequence lookup
(`self.note_cls(attrs=note_attrs[adjusted_index], ..., row_num=index)` where
`note_attrs` is the child NoteSequence found in the range map), or the implicit
`None` Python returns when the range-map loop falls through. -/
inductive NoteRef where
  | ownRow (attrs : List ℚ) (rowNum : ℤ)
  | childRef (child : NSeq) (adjustedIndex : ℤ) (rowNum : ℤ)
  | pyNone

/-- Row selection `self.note_attrs[index]` on the numpy table: negative indices
wrap around from the end, anything else out of range raises IndexError. -/
def pyRow (rows : List (List ℚ)) (i : ℤ) : Except PyErr (List ℚ) :=
  let j : ℤ := if i < 0 then i + rows.length else i
  if 0 ≤ j ∧ j < (rows.length : ℤ) then .ok (rows.getD j.toNat []) else .error .indexError

/-- The loop of `_get_note_for_index` over `self._range_map.keys()`: return the
child lookup at the first key the index is below, accumulating `index_range_sum
+= index_range` otherwise; falling off the loop returns Python's implicit None. -/
def rangeLoop (index : ℤ) : List (ℕ × NSeq) → ℤ → Except PyErr NoteRef
  | [], _ => .ok .pyNone
  | (k, c) :: rest, indexRangeSum =>
      if index < (k : ℤ) then .ok (.childRef c (index - indexRangeSum) index)
      else rangeLoop index rest (indexRangeSum + k)

/-- `NoteSequence._get_note_for_index` (which `__getitem__` delegates to): raises
ValueError when `index >= self.max_index`; returns a view over own row `index`
when `index < len(self.note_attrs)`; otherwise walks the range map starting from
`index_range_sum = len(self.note_attrs)`. -/
def getNoteForIndex (s : NSeq) (index : ℤ) : Except PyErr NoteRef :=
  if (seqLen s : ℤ) ≤ index then .error .valueError
  else if index < (s.noteAttrs.length : ℤ) then
    match pyRow s.noteAttrs index with
    | .error e => .error e
    | .ok row => .ok (.ownRow row index)
  else
    rangeLoop index (rangeMapEntries s) (s.noteAttrs.length : ℤ)

/-- Notes yielded by `__iter__`/`__next__`: `__iter__` resets `self.index` to 0 and
`__next__` returns `_get_note_for_index(self.index)` until `self.index` reaches
`self.max_index`.  Only own-row views are collected; the helper is used for
Measure, which never has child sequences so every yielded note is an own row. -/
def iterRows (s : NSeq) : List (List ℚ) :=
  (List.range (seqLen s)).filterMap (fun i =>
    match getNoteForIndex s (i : ℤ) with
    | .ok (.ownRow row _) => some row
    | _ => none)

/-- The numpy shape of `self.note_attrs` as built by the constructor
(`np.array([[0.0] * num_attributes for _ in range(num_notes)])`): a rank-2 array
of shape `(num_notes, num_attributes)` when there is at least one row, and the
rank-1 empty array of shape `(0,)` when `num_notes` is 0. -/
def npShape (rows : List (List ℚ)) : List ℕ :=
  match rows with
  | [] => [0]
  | r :: _ => [rows.length, r.length]

/-- `NoteSequence.append(note)`: raises NoteSequenceInvalidAppendException when
`self.note_attrs.shape != note.__dict__['_attrs'].shape`.  The table's shape is
rank 2 while a note's `_attrs` row is rank 1 of shape `(num_attributes,)`, so the
comparison fails for every note with at least one attribute.  The success branch
(only reachable for an empty table and an empty attribute row) is embedded as the
intended row append; in the source even that branch is faulty
(`self.note_attrs.resize(self.note_attrs, new_note_idx + 1)` misuses
`ndarray.resize`), but no claim exercises it. -/
def nseqAppendRows (rows : List (List ℚ)) (note : List ℚ) : Except PyErr (List (List ℚ)) :=
  if npShape rows ≠ [note.length] then .error .invalidAppend
  else .ok (rows ++ [note])

/-- `NoteSequence.extend(note_sequence)`: raises NoteSequenceInvalidAppendException
when `self.note_attrs.shape != note_sequence.note_attrs.shape` (full shape equality,
so both tables must have the same row count and column count), else concatenates
row-wise (`np.concatenate`). -/
def nseqExtendRows (rows other : List (List ℚ)) : Except PyErr (List (List ℚ)) :=
  if npShape rows ≠ npShape other then .error .invalidAppend
  else .ok (rows ++ other)

/-- Column of the `start` attribute.  omnisound/note/adapters/note.py fixes the
base layout `instrument = 0, START = 1, DUR = 2, AMP = 3, PITCH = 4`; measure.py
imports this as `START_I`. -/
def START_I : ℕ := 1

/-- Column of the `dur` attribute (see `START_I`). -/
def DUR_I : ℕ := 2

/-- `note.start`: the start cell of a note's attribute row. -/
def noteStart (n : List ℚ) : ℚ := n.getD START_I 0

/-- `note.dur`: the duration cell of a note's attribute row. -/
def noteDur (n : List ℚ) : ℚ := n.getD DUR_I 0

/-- The state of a Measure (measure.py): the inherited NoteSequence table (a
Measure passes no `child_sequences`, so its child list is always empty), the
values of `attr_name_idx_map` in key order (used by the sort write-back), the
beat cursor, the `next_note_start` cursor, and the Meter-derived quantities
`beats_per_measure`, `beat_start_times_secs` and
`max_duration = beats_per_measure * beat_note_dur.value`. -/
structure Measure where
  rows : List (List ℚ)
  attrIdxs : List ℕ
  beat : ℤ
  nextNoteStart : ℚ
  beatsPerMeasure : ℤ
  beatStartTimes : List ℚ
  maxDuration : ℚ
  deriving DecidableEq, Repr

/-- The NoteSequence a Measure is: its own table and no child sequences. -/
def Measure.toNSeq (m : Measure) : NSeq := .mk m.rows []

/-- The notes a Measure's iteration yields (see `iterRows`). -/
def measureIterRows (m : Measure) : List (List ℚ) := iterRows m.toNSeq

/-- `sorted_notes.sort(key=lambda x: x[START_I])`: a stable sort of attribute rows
by the start column. -/
def sortByStart (rows : List (List ℚ)) : List (List ℚ) :=
  rows.mergeSort (fun a b => decide (noteStart a ≤ noteStart b))

/-- The inner write-back loop of `_sort_notes_by_start_time`: for each name in
`attr_name_idx_map` (in key order, giving column indices `idxs`) copy
`sorted_note[j]` into the note's backing row.  Reading `sorted_note[j]` past its
end, or writing a column outside the row, raises IndexError. -/
def writeAttrs : List ℚ → List ℕ → List ℚ → Except PyErr (List ℚ)
  | row, [], _ => .ok row
  | _, _ :: _, [] => .error .indexError
  | row, idx :: idxs, v :: vs =>
      if idx < row.length then writeAttrs (row.set idx v) idxs vs
      else .error .indexError

/-- Writing one sorted note back through `self[i]`: the `self[i]` lookup is
`_get_note_for_index(i)`, which raises for every `i` on a Measure because
`max_index` is 0 (a Measure has no child sequences and `_update_range_map` is
never called after row writes — see the `TODO CALL _UPDATE AFTER ALL WRITES`
comments); on success the attribute writes land in row `i` of the table. -/
def setNoteVals (m : Measure) (i : ℕ) (sn : List ℚ) : Except PyErr Measure :=
  match getNoteForIndex m.toNSeq (i : ℤ) with
  | .error e => .error e
  | .ok _ =>
      match writeAttrs (m.rows.getD i []) m.attrIdxs sn with
      | .error e => .error e
      | .ok row => .ok { m with rows := m.rows.set i row }

/-- `for i, sorted_note in enumerate(sorted_notes): ...` of
`_sort_notes_by_start_time`. -/
def writeBackLoop : Measure → List (List ℚ) → ℕ → Except PyErr Measure
  | m, [], _ => .ok m
  | m, sn :: rest, i =>
      match setNoteVals m i sn with
      | .error e => .error e
      | .ok m2 => writeBackLoop m2 rest (i + 1)

/-- `Measure._sort_notes_by_start_time`: collects `[note.as_list() for note in
self]` (iteration is bounded by `max_index`, which is 0 for every Measure, so the
collected list is empty; `as_list` itself is not even defined by the Note adapter
in the sources), sorts it by the start column, and writes the sorted rows back
through `self[i]`. -/
def sortNotesByStartTime (m : Measure) : Except PyErr Measure :=
  writeBackLoop m (sortByStart (measureIterRows m)) 0

/-- `Measure.append(note)`: the inherited `NoteSequence.append` followed by
`_sort_notes_by_start_time`. -/
def Measure.appendNote (m : Measure) (note : List ℚ) : Except PyErr Measure :=
  match nseqAppendRows m.rows note with
  | .error e => .error e
  | .ok rows => sortNotesByStartTime { m with rows := rows }

/-- `Measure.extend(to_add)`: the inherited `NoteSequence.extend` followed by
`_sort_notes_by_start_time`. -/
def Measure.extendRows (m : Measure) (other : List (List ℚ)) : Except PyErr Measure :=
  match nseqExtendRows m.rows other with
  | .error e => .error e
  | .ok rows => sortNotesByStartTime { m with rows := rows }

/-- `Measure.add_note_on_start(note, increment_start)`: raises ValueError when
`next_note_start + note.dur > max_duration`; else sets `note.start =
next_note_start`, calls `self.append(note)` (which sorts), sorts again, and
advances `next_note_start` by `note.dur` when the flag is set. -/
def Measure.addNoteOnStart (m : Measure) (note : List ℚ) (incrementStart : Bool) :
    Except PyErr Measure :=
  if m.maxDuration < m.nextNoteStart + noteDur note then .error .valueError
  else
    let note2 := note.set START_I m.nextNoteStart
    match m.appendNote note2 with
    | .error e => .error e
    | .ok m2 =>
        match sortNotesByStartTime m2 with
        | .error e => .error e
        | .ok m3 =>
            .ok (if incrementStart then
                  { m3 with nextNoteStart := m3.nextNoteStart + noteDur note2 }
                 else m3)

/-- `self[i].start = beat_start_time` inside `add_notes_on_beat`: the `self[i]`
lookup raises unless `i < max_index`; on success the start cell of row `i` is
overwritten. -/
def setNoteStart (m : Measure) (i : ℕ) (t : ℚ) : Except PyErr Measure :=
  match getNoteForIndex m.toNSeq (i : ℤ) with
  | .error e => .error e
  | .ok _ => .ok { m with rows := m.rows.set i ((m.rows.getD i []).set START_I t) }

/-- `for i, beat_start_time in enumerate(self.meter.beat_start_times_secs)` of
`add_notes_on_beat`, with the `if i == len(self): break` guard (`len(self)` is the
Measure's own `max_index`). -/
def assignBeatsLoop : Measure → List ℚ → ℕ → Except PyErr Measure
  | m, [], _ => .ok m
  | m, t :: ts, i =>
      if i = seqLen m.toNSeq then .ok m
      else
        match setNoteStart m i t with
        | .error e => .error e
        | .ok m2 => assignBeatsLoop m2 ts (i + 1)

/-- `Measure.add_notes_on_beat(to_add)`: raises ValueError when `len(to_add)`
exceeds `beats_per_measure`; else assigns beat start times to the measure's notes
in order and re-sorts. -/
def Measure.addNotesOnBeat (m : Measure) (toAdd : NSeq) : Except PyErr Measure :=
  if m.beatsPerMeasure < (seqLen toAdd : ℤ) then .error .valueError
  else
    match assignBeatsLoop m m.beatStartTimes 0 with
    | .error e => .error e
    | .ok m2 => sortNotesByStartTime m2

/-- `Measure.increment_beat`: `self.beat = min(self.beat + 1,
self.meter.beats_per_measure)`. -/
def Measure.incrementBeat (m : Measure) : Measure :=
  { m with beat := min (m.beat + 1) m.beatsPerMeasure }

/-- `Measure.decrement_beat`: `self.beat = max(0, self.beat - 1)`. -/
def Measure.decrementBeat (m : Measure) : Measure :=
  { m with beat := max 0 (m.beat - 1) }

/-- One call of the beat-cursor API. -/
inductive BeatOp where
  | inc
  | dec
  deriving DecidableEq, Repr

def applyBeatOp (m : Measure) : BeatOp → Measure
  | .inc => m.incrementBeat
  | .dec => m.decrementBeat

/-- A sequence of `increment_beat` / `decrement_beat` calls. -/
def applyBeatOps (m : Measure) (ops : List BeatOp) : Measure :=
  ops.foldl applyBeatOp m

/-- An attribute row in the base 5-column layout `[instrument, start, dur, amp,
pitch]` with the given start and duration. -/
def mkRow (s d : ℚ) : List ℚ := [1, s, d, 100, 9]

/-- The column indices of `attr_name_idx_map` in key order, for the base layout
`instrument, i, start, s, dur, d, amp, a, pitch, p` of note.py. -/
def baseAttrIdxs : List ℕ := [0, 0, 1, 1, 2, 2, 3, 3, 4, 4]

/-- A measure holding two notes whose starts (0.2 then 0.1) are not in ascending
order (states like this are produced by writing `note.start` through note views,
as the repository's own tests do), under the default 4/4 meter (quarter-note
beats, `max_duration = 1.0`, beat starts `[0.0, 0.25, 0.5, 0.75]`). -/
def mC1 : Measure :=
  { rows := [mkRow (2/10) (1/4), mkRow (1/10) (1/4)]
    attrIdxs := baseAttrIdxs
    beat := 0
    nextNoteStart := 0
    beatsPerMeasure := 4
    beatStartTimes := [0, 1/4, 1/2, 3/4]
    maxDuration := 1 }

/-- Two rows starting at 0, matching `mC1`'s table shape, to extend with. -/
def otherC1 : List (List ℚ) := [mkRow 0 (1/4), mkRow 0 (1/4)]

/-- A NoteSequence with one own row and no child sequences. -/
def seqC2 : NSeq := .mk [mkRow 0 (1/4)] []

/-- The example documented inside `_update_range_map` itself: a sequence with 10
own rows and two children of 11 and 12 rows, for which the comment promises the
range map `[10: self, 21: child_1, 33: child_2]` and hence a flattened length
of 33. -/
def docC2 : NSeq :=
  .mk (List.replicate 10 (mkRow 0 0))
    [.mk (List.replicate 11 (mkRow 0 0)) [], .mk (List.replicate 12 (mkRow 0 0)) []]

/-- An empty measure under the default 4/4 meter. -/
def mC4 : Measure :=
  { rows := []
    attrIdxs := baseAttrIdxs
    beat := 0
    nextNoteStart := 0
    beatsPerMeasure := 4
    beatStartTimes := [0, 1/4, 1/2, 3/4]
    maxDuration := 1 }

/-- A quarter note: within the duration budget of `mC4`. -/
def noteC4 : List ℚ := mkRow 0 (1/4)

/-- A note of duration 2, beyond `mC4.maxDuration = 1`. -/
def bigNoteC4 : List ℚ := mkRow 0 2

/-- A one-row table with the 5-column base schema. -/
def rowsC5 : List (List ℚ) := [mkRow 0 (1/4)]

/-- A note with the same 5 attributes as `rowsC5`'s schema. -/
def noteC5 : List ℚ := mkRow (1/4) (1/4)

/-- A measure already holding 4 notes, under the default 4/4 meter. -/
def mC6 : Measure :=
  { rows := [mkRow 0 (1/4), mkRow 0 (1/4), mkRow 0 (1/4), mkRow 0 (1/4)]
    attrIdxs := baseAttrIdxs
    beat := 0
    nextNoteStart := 0
    beatsPerMeasure := 4
    beatStartTimes := [0, 1/4, 1/2, 3/4]
    maxDuration := 1 }

/-- 5 notes — more than `mC6`'s 4 beats per measure. -/
def toAddC6 : NSeq := .mk (List.replicate 5 (mkRow 0 (1/4))) []

/-- An empty measure with the beat cursor at 0 (the constructor's initial state). -/
def mC8 : Measure := mC4

/-- Six increments (two past the 4 beats per measure) followed by a decrement. -/
def opsC8 : List BeatOp := [.inc, .inc, .inc, .inc, .inc, .inc, .dec]

/-- A sequence with 2 own rows, one child holding 1 own row, and one grandchild
holding 3 rows — a shape for which `max_index` is positive (it computes to 4), so
in-range own-row lookups are reachable. -/
def treeC10 : NSeq :=
  .mk [mkRow 0 1, mkRow (1/4) 1]
    [.mk [mkRow 0 0] [.mk (List.replicate 3 (mkRow 0 0)) []]]

end Omnisound

namespace Aleatoric

/-- A note as consumed by `Meter.quantize` in src/aleatoric/measure.py: the
CSoundNote adapter stores scalar fields, and both `note.dur` and `note.duration`
are properties over the same `_duration` field. -/
structure ANote where
  start : ℚ
  duration : ℚ
  deriving DecidableEq, Repr

/-- `note.dur`, an alias of `note.duration` (csound_note.py). -/
def ANote.dur (n : ANote) : ℚ := n.duration

/-- Modelled from the spec: `NoteSequence.dup` lives in `aleatoric/note.py`,
which is not among the sources; the spec (section 4.4) requires `quantize` to
"operate on a copy of the input sequence, leaving the original untouched", so
`dup` is modelled as a deep copy — with value semantics, the list itself. -/
def dup (notes : List ANote) : List ANote := notes

/-- The loop body of `Meter.quantize` for one note of the duplicated sequence:
`new_duration = note.duration * note_adj_factor`; if `note.start > 0.0` then
`note.start = note.start + (new_duration - note.duration)` (using the old
duration); finally `note.duration = new_duration`. -/
def quantizeNote (f : ℚ) (n : ANote) : ANote :=
  let newDuration := n.duration * f
  let n2 := if 0 < n.start then { n with start := n.start + (newDuration - n.duration) } else n
  { n2 with duration := newDuration }

/-- `Meter.quantize(note_sequence, measure_duration)` (src/aleatoric/measure.py):
does nothing unless quantizing; exits early when the summed durations already
equal the measure duration; otherwise computes `note_adj_factor =
measure_duration / notes_duration` (a ZeroDivisionError when the durations sum
to 0), duplicates the sequence, and rescales the duplicate's notes.  The method
returns `None` and never stores the duplicate, so its only observable results are
the input sequence's notes after the call (the first component, unchanged because
the loop mutates the duplicate) and, for inspection, the duplicate's final state
(the second component, `none` when no duplicate is created). -/
def quantize (quantizing : Bool) (noteList : List ANote) (measureDuration : ℚ) :
    Except Omnisound.PyErr (List ANote × Option (List ANote)) :=
  if quantizing then
    let notesDuration := (noteList.map ANote.dur).sum
    if notesDuration = measureDuration then .ok (noteList, none)
    else if notesDuration = 0 then .error .zeroDivision
    else
      .ok (noteList,
        some ((dup noteList).map (quantizeNote (measureDuration / notesDuration))))
  else .ok (noteList, none)

/-- The duration enumeration of src/aleatoric/measure.py.  The seven distinct
members (each short and long name is an alias of one of these values). -/
inductive NoteDur where
  | WHOLE
  | HALF
  | QUARTER
  | EIGHTH
  | SIXTEENTH
  | THIRTYSECOND
  | SIXTYFOURTH
  deriving DecidableEq, Repr

/-- The literal enum values: `_1_0 = 1.0`, `_0_5 = 0.5`, `_0_25 = 0.25`,
`_0_125 = 0.125`, `_0_00625 = 0.00625`, `_0_0003125 = 0.0003125`,
`_0_000015625 = 0.000015625`. -/
def NoteDur.val : NoteDur → ℚ
  | .WHOLE => 1.0
  | .HALF => 0.5
  | .QUARTER => 0.25
  | .EIGHTH => 0.125
  | .SIXTEENTH => 0.00625
  | .THIRTYSECOND => 0.0003125
  | .SIXTYFOURTH => 0.000015625

/-- The four-note example of the claim: durations 0.5 each, starts
`0.0, 0.25, 0.5, 0.75`, to be quantized against a measure duration of 1.0. -/
def c3Notes : List ANote :=
  [⟨0, 1/2⟩, ⟨1/4, 1/2⟩, ⟨1/2, 1/2⟩, ⟨3/4, 1/2⟩]

/-- Four quarter notes exactly filling a measure of duration 1.0. -/
def c7Notes : List ANote :=
  [⟨0, 1/4⟩, ⟨1/4, 1/4⟩, ⟨1/2, 1/4⟩, ⟨3/4, 1/4⟩]

end Aleatoric

namespace Omnisound

lemma dfsLenSum_append (l1 l2 : List NSeq) :
    dfsLenSum (l1 ++ l2) = dfsLenSum l1 + dfsLenSum l2 := by
  induction l1 with
  | nil => simp [dfsLenSum]
  | cons c cs ih =>
      cases c with
      | mk rows ch => simp only [List.cons_append, dfsLenSum, ih]; omega

lemma lastKey_append_single (es : List (ℕ × NSeq)) (k : ℕ) (v : NSeq) :
    lastKey (es ++ [(k, v)]) = k := by
  simp [lastKey]

lemma addEntry_lastKey (es : List (ℕ × NSeq)) (k : ℕ) (v : NSeq)
    (hne : es ≠ []) (hinv : KeysBelowLast es) (hk : lastKey es ≤ k) :
    lastKey (addEntry es k v) = k ∧ KeysBelowLast (addEntry es k v) ∧
      addEntry es k v ≠ [] := by
  by_cases hmem : es.any (fun e => e.fst = k) = true
  · rw [addEntry, if_pos hmem]
    -- a key collision forces k = lastKey es, and the map keeps every key unchanged
    have hkeq : lastKey es = k := by
      rcases List.any_eq_true.mp hmem with ⟨e, he, heq⟩
      have h1 : e.fst ≤ lastKey es := hinv e he
      have h2 : e.fst = k := by simpa using heq
      omega
    have hmapkeys : ∀ e ∈ es.map (fun e => if e.fst = k then (k, v) else e),
        e.fst ≤ k := by
      intro e he
      rcases List.mem_map.mp he with ⟨a, ha, rfl⟩
      by_cases h : a.fst = k
      · simp [h]
      · simp only [if_neg h]
        exact hkeq ▸ hinv a ha
    have hlast : lastKey (es.map (fun e => if e.fst = k then (k, v) else e)) = k := by
      rcases List.exists_cons_of_ne_nil hne with ⟨a, as, rfl⟩
      have hgl : ((a :: as).map (fun e => if e.fst = k then (k, v) else e)).getLast? =
          ((a :: as).getLast?).map (fun e => if e.fst = k then (k, v) else e) :=
        List.getLast?_map _ _
      have hlastmem : (a :: as).getLast (by simp) ∈ (a :: as) := List.getLast_mem _
      have hlv : (a :: as).getLast? = some ((a :: as).getLast (by simp)) :=
        List.getLast?_eq_getLast _ _
      have hle : ((a :: as).getLast (by simp)).fst ≤ lastKey (a :: as) :=
        hinv _ hlastmem
      have hge : lastKey (a :: as) = ((a :: as).getLast (by simp)).fst := by
        unfold lastKey
        rw [hlv]
        simp
      unfold lastKey
      rw [hgl, hlv]
      have h : ((a :: as).getLast (by simp)).fst = k := by omega
      simp [h]
    refine ⟨hlast, ?_, ?_⟩
    · intro e he
      rw [hlast]
      exact hmapkeys e he
    · intro hcon
      exact hne (List.map_eq_nil_iff.mp hcon)
  · rw [addEntry, if_neg hmem]
    refine ⟨lastKey_append_single es k v, ?_, by simp⟩
    intro e he
    rw [lastKey_append_single]
    rcases List.mem_append.mp he with h | h
    · exact le_trans (hinv e h) hk
    · simp at h
      simp [h]

/-- The queue loop adds exactly the depth-first sum of lengths to the last key. -/
lemma queueLoop_lastKey (q : List NSeq) (es : List (ℕ × NSeq))
    (hne : es ≠ []) (hinv : KeysBelowLast es) :
    lastKey (queueLoop q es) = lastKey es + dfsLenSum q := by
  induction q, es using queueLoop.induct with
  | case1 es => simp [queueLoop, dfsLenSum]
  | case2 cur rest es ih =>
      rw [queueLoop]
      obtain ⟨h1, h2, h3⟩ :=
        addEntry_lastKey es (lastKey es + seqLen cur) cur hne hinv (by omega)
      rw [ih h3 h2, h1, dfsLenSum_append]
      cases cur with
      | mk rows ch => simp only [dfsLenSum, NSeq.children]; omega

/-- The direct formula `seqLen` agrees with the last key of the literally
transcribed range-map construction, which is what `_update_range_map` assigns to
`max_index` when child sequences exist. -/
theorem rangeMapEntries_lastKey (rows : List (List ℚ)) (c0 : NSeq) (cs : List NSeq) :
    lastKey (rangeMapEntries (.mk rows (c0 :: cs))) = seqLen (.mk rows (c0 :: cs)) := by
  unfold rangeMapEntries
  rw [queueLoop_lastKey _ _ (by simp) (by intro e he; simp at he; simp [he, lastKey])]
  simp [lastKey, seqLen]

lemma seqLen_noChildren (rows : List (List ℚ)) : seqLen (.mk rows []) = 0 := by
  simp [seqLen]

/-- A Measure's iteration yields no notes: its `max_index` is 0 (no child
sequences ever exist and the range map is never updated after row writes). -/
lemma measureIterRows_nil (m : Measure) : measureIterRows m = [] := by
  simp [measureIterRows, iterRows, Measure.toNSeq, seqLen_noChildren]

/-- Consequently `_sort_notes_by_start_time` never touches the rows: the
collected note list is empty and the write-back loop does nothing. -/
lemma sortNotesByStartTime_noop (m : Measure) : sortNotesByStartTime m = .ok m := by
  simp [sortNotesByStartTime, measureIterRows_nil, sortByStart, writeBackLoop]

/-- C1: the claim says every structural mutator leaves adjacent notes sorted by
start in iteration order.  The code violates it: extending a measure whose rows
start at `[0.2, 0.1]` with two rows starting at 0 succeeds but leaves the
underlying rows in start order `[0.2, 0.1, 0, 0]` — `_sort_notes_by_start_time`
reorders nothing because iteration is bounded by `max_index`, which stays 0 — and
iteration itself yields no notes at all despite the measure holding 4 rows. -/
theorem c1_sort_invariant_violated :
    Measure.extendRows mC1 otherC1 = .ok { mC1 with rows := mC1.rows ++ otherC1 } ∧
    (mC1.rows ++ otherC1).map noteStart = [2/10, 1/10, 0, 0] ∧
    ¬ List.Chain' (fun a b => noteStart a ≤ noteStart b) (mC1.rows ++ otherC1) ∧
    measureIterRows { mC1 with rows := mC1.rows ++ otherC1 } = [] := by
  refine ⟨?_, ?_, ?_, measureIterRows_nil _⟩
  · have h1 : nseqExtendRows mC1.rows otherC1 = .ok (mC1.rows ++ otherC1) := rfl
    simp only [Measure.extendRows, h1, sortNotesByStartTime_noop]
  · simp [mC1, otherC1, mkRow, noteStart, START_I]
  · simp only [mC1, otherC1, mkRow, List.cons_append, List.nil_append,
      List.chain'_cons, List.chain'_singleton, and_true]
    norm_num [noteStart, START_I]

/-- C2: the claim says `len(sequence)` is the own row count plus the recursively
flattened sizes of all children.  The code returns `max_index`, which stays 0 for
any sequence without child sequences (here: one own row, length 0 instead of 1),
and which computes to 10 — not 33 — on the 10/11/12 example documented inside
`_update_range_map` itself (each child-free child contributes its own
`max_index` of 0 rather than its row count). -/
theorem c2_flattened_length_bug :
    seqLen seqC2 = 0 ∧ seqC2.noteAttrs.length = 1 ∧
    seqLen docC2 = 10 ∧
    docC2.noteAttrs.length + (docC2.children.map (fun c => c.noteAttrs.length)).sum = 33 := by
  refine ⟨seqLen_noChildren _, rfl, ?_, rfl⟩
  rw [docC2]
  simp only [seqLen, dfsLenSum, List.length_replicate]

/-- C4: the claim says an in-budget note is appended with `start =
next_note_start` and the cursor advances.  The code raises
NoteSequenceInvalidAppendException for the in-budget quarter note instead,
because `NoteSequence.append` compares the rank-2 table shape with the note's
rank-1 attribute shape; the over-budget branch does raise ValueError before any
mutation, as claimed. -/
theorem c4_add_note_on_start_bug :
    mC4.nextNoteStart + noteDur noteC4 ≤ mC4.maxDuration ∧
    Measure.addNoteOnStart mC4 noteC4 true = .error .invalidAppend ∧
    mC4.maxDuration < mC4.nextNoteStart + noteDur bigNoteC4 ∧
    Measure.addNoteOnStart mC4 bigNoteC4 true = .error .valueError := by
  have hbudget : ¬ mC4.maxDuration < mC4.nextNoteStart + noteDur noteC4 := by
    norm_num [mC4, noteC4, mkRow, noteDur, DUR_I]
  have hbig : mC4.maxDuration < mC4.nextNoteStart + noteDur bigNoteC4 := by
    norm_num [mC4, bigNoteC4, mkRow, noteDur, DUR_I]
  have happend :
      nseqAppendRows mC4.rows (noteC4.set START_I mC4.nextNoteStart) =
        .error .invalidAppend := rfl
  refine ⟨by exact not_lt.mp hbudget, ?_, hbig, ?_⟩
  · simp only [Measure.addNoteOnStart, if_neg hbudget, Measure.appendNote, happend]
  · simp only [Measure.addNoteOnStart, if_pos hbig]

/-- C5: the claim says append adds exactly one row when the note's column count
matches the sequence's and fails only on a column-count mismatch.  The code
raises NoteSequenceInvalidAppendException even for a 5-attribute note appended to
a 5-column table, since `self.note_attrs.shape` (here `(1, 5)`) never equals the
note's `_attrs.shape` (here `(5,)`). -/
theorem c5_append_bug :
    noteC5.length = 5 ∧ rowsC5.map List.length = [5] ∧
    nseqAppendRows rowsC5 noteC5 = .error .invalidAppend :=
  ⟨rfl, rfl, rfl⟩

/-- C6: the claim says `add_notes_on_beat` raises ValueError for an input longer
than `beats_per_measure` and otherwise replaces the measure's note start times.
The code does neither: `len(to_add)` evaluates to `max_index`, which is 0 for the
5-note child-free input, so the guard passes; and the assignment loop breaks
immediately because `i == len(self)` is `0 == 0`, returning the measure
unchanged. -/
theorem c6_add_notes_on_beat_bug :
    toAddC6.noteAttrs.length = 5 ∧ mC6.beatsPerMeasure = 4 ∧
    Measure.addNotesOnBeat mC6 toAddC6 = .ok mC6 := by
  refine ⟨rfl, rfl, ?_⟩
  have hmlen : seqLen mC6.toNSeq = 0 := seqLen_noChildren _
  have hguard : ¬ mC6.beatsPerMeasure < (seqLen toAddC6 : ℤ) := by
    rw [show seqLen toAddC6 = 0 from seqLen_noChildren _]
    decide
  have hloop : assignBeatsLoop mC6 mC6.beatStartTimes 0 = .ok mC6 := by
    show assignBeatsLoop mC6 (0 :: [1/4, 1/2, 3/4]) 0 = .ok mC6
    simp [assignBeatsLoop, hmlen]
  simp only [Measure.addNotesOnBeat, if_neg hguard, hloop, sortNotesByStartTime_noop]

/-- C8: the beat cursor saturates: starting from any state with
`beat ∈ [0, beats_per_measure]`, any sequence of `increment_beat` /
`decrement_beat` calls keeps it in that interval (both calls are total: `min` /
`max` on integers, no exception path exists in the source). -/
theorem c8_beat_saturation (m : Measure) (ops : List BeatOp)
    (h0 : 0 ≤ m.beat) (h1 : m.beat ≤ m.beatsPerMeasure) :
    0 ≤ (applyBeatOps m ops).beat ∧ (applyBeatOps m ops).beat ≤ m.beatsPerMeasure := by
  induction ops generalizing m with
  | nil => exact ⟨h0, h1⟩
  | cons op ops ih =>
      have hbpm : (applyBeatOp m op).beatsPerMeasure = m.beatsPerMeasure := by
        cases op <;> rfl
      have hb0 : 0 ≤ (applyBeatOp m op).beat := by
        cases op <;>
          simp only [applyBeatOp, Measure.incrementBeat, Measure.decrementBeat] <;>
          omega
      have hb1 : (applyBeatOp m op).beat ≤ (applyBeatOp m op).beatsPerMeasure := by
        cases op <;>
          simp only [applyBeatOp, Measure.incrementBeat, Measure.decrementBeat] <;>
          omega
      have hrec := ih (applyBeatOp m op) hb0 hb1
      rw [hbpm] at hrec
      simpa [applyBeatOps, List.foldl_cons] using hrec

/-- Witness for C8 at a concrete measure and call sequence. -/
theorem c8_beat_saturation_witness :
    0 ≤ mC8.beat ∧ mC8.beat ≤ mC8.beatsPerMeasure ∧
      (0 ≤ (applyBeatOps mC8 opsC8).beat ∧
        (applyBeatOps mC8 opsC8).beat ≤ mC8.beatsPerMeasure) :=
  ⟨by decide, by decide, c8_beat_saturation mC8 opsC8 (by decide) (by decide)⟩

/-- C10: `__getitem__` raises for every index at or above the flattened length
(`max_index`), and every index below both the own row count and `max_index`
yields a note view bound to exactly row `index` of the sequence's own table — no
such access reads outside the table. -/
theorem c10_getitem_bounds (s : NSeq) (i : ℤ) :
    ((seqLen s : ℤ) ≤ i → getNoteForIndex s i = .error .valueError) ∧
    (0 ≤ i → i < (s.noteAttrs.length : ℤ) → i < (seqLen s : ℤ) →
      getNoteForIndex s i = .ok (.ownRow (s.noteAttrs.getD i.toNat []) i)) := by
  constructor
  · intro h
    unfold getNoteForIndex
    rw [if_pos h]
  · intro h0 hlen hmax
    have hp : pyRow s.noteAttrs i = .ok (s.noteAttrs.getD i.toNat []) := by
      unfold pyRow
      simp only []
      rw [if_neg (by omega : ¬ i < 0), if_pos (by constructor <;> omega)]
    unfold getNoteForIndex
    rw [if_neg (by omega), if_pos hlen, hp]

/-- Witness for C10 on a sequence with positive `max_index` (it computes to 4
with 2 own rows): index 4 raises, index 1 returns the own-row view of row 1. -/
theorem c10_getitem_bounds_witness :
    ((seqLen treeC10 : ℤ) ≤ 4 ∧ getNoteForIndex treeC10 4 = .error .valueError) ∧
    (0 ≤ (1 : ℤ) ∧ (1 : ℤ) < (treeC10.noteAttrs.length : ℤ) ∧
      (1 : ℤ) < (seqLen treeC10 : ℤ) ∧
      getNoteForIndex treeC10 1 = .ok (.ownRow (treeC10.noteAttrs.getD 1 []) 1)) := by
  have hlen4 : seqLen treeC10 = 4 := by
    rw [treeC10]
    simp only [seqLen, dfsLenSum, List.length_replicate, List.length_cons,
      List.length_nil]
  have h4 : (seqLen treeC10 : ℤ) ≤ 4 := by rw [hlen4]; decide
  have h0 : (0 : ℤ) ≤ 1 := by decide
  have hown : (1 : ℤ) < (treeC10.noteAttrs.length : ℤ) := by decide
  have hmax : (1 : ℤ) < (seqLen treeC10 : ℤ) := by rw [hlen4]; decide
  exact ⟨⟨h4, (c10_getitem_bounds treeC10 4).1 h4⟩,
    ⟨h0, hown, hmax, (c10_getitem_bounds treeC10 1).2 h0 hown hmax⟩⟩

end Omnisound

namespace Aleatoric

/-- C3: the claim says the 4-note example (durations 0.5, starts
`0.0, 0.25, 0.5, 0.75`, measure duration 1.0) ends with durations 0.375 and
starts `[0.0, 0.125, 0.375, 0.625]`.  It is false twice over: the input sequence
ends unchanged (the method rescales only the duplicate, which it discards), and
even the duplicate's notes get durations `0.25` and starts `[0, 0, 0.25, 0.5]`
(the factor is `measure_duration / sum(durations) = 1/2`), not 0.375. -/
theorem c3_quantize_counterexample :
    quantize true c3Notes 1 =
      .ok (c3Notes, some [⟨0, 1/4⟩, ⟨0, 1/4⟩, ⟨1/4, 1/4⟩, ⟨1/2, 1/4⟩]) ∧
    c3Notes.map ANote.duration = [1/2, 1/2, 1/2, 1/2] ∧
    c3Notes.map ANote.start = [0, 1/4, 1/2, 3/4] ∧
    c3Notes.map ANote.duration ≠ [3/8, 3/8, 3/8, 3/8] ∧
    ([⟨0, 1/4⟩, ⟨0, 1/4⟩, ⟨1/4, 1/4⟩, ⟨1/2, 1/4⟩] : List ANote).map ANote.duration ≠
      [3/8, 3/8, 3/8, 3/8] := by
  refine ⟨?_, by norm_num [c3Notes], by norm_num [c3Notes], by norm_num [c3Notes],
    by norm_num⟩
  norm_num [quantize, c3Notes, ANote.dur, dup, quantizeNote]

/-- C3 amended: when quantizing is on and the durations sum neither to the
measure duration nor to zero, `quantize` rescales the notes of a duplicate of the
sequence with `factor = measure_duration / sum(durations)` — per note
`new_duration = duration * factor` and, when `start > 0`,
`new_start = start + (new_duration - duration)` — then discards the duplicate,
leaving the input sequence's notes unchanged. -/
theorem c3_quantize_amended (notes : List ANote) (md : ℚ)
    (hsum : (notes.map ANote.dur).sum ≠ md) (h0 : (notes.map ANote.dur).sum ≠ 0) :
    quantize true notes md =
      .ok (notes, some (notes.map (quantizeNote (md / (notes.map ANote.dur).sum)))) := by
  unfold quantize
  simp only [if_true, dup, if_neg hsum, if_neg h0]

/-- Witness for the amended C3 at the claim's own example input. -/
theorem c3_quantize_amended_witness :
    ((c3Notes.map ANote.dur).sum ≠ 1 ∧ (c3Notes.map ANote.dur).sum ≠ 0) ∧
    quantize true c3Notes 1 =
      .ok (c3Notes, some (c3Notes.map (quantizeNote (1 / (c3Notes.map ANote.dur).sum)))) :=
  ⟨⟨by norm_num [c3Notes, ANote.dur], by norm_num [c3Notes, ANote.dur]⟩,
    c3_quantize_amended c3Notes 1 (by norm_num [c3Notes, ANote.dur])
      (by norm_num [c3Notes, ANote.dur])⟩

/-- C7: `quantize` is a no-op — the sequence's notes keep their starts and
durations and no error is raised — whenever quantizing is disabled or the summed
note durations already equal the measure duration (the source compares the two
float values for equality). -/
theorem c7_quantize_noop (quantizing : Bool) (notes : List ANote) (md : ℚ)
    (h : quantizing = false ∨ (notes.map ANote.dur).sum = md) :
    quantize quantizing notes md = .ok (notes, none) := by
  rcases h with h | h
  · rw [h]
    rfl
  · cases quantizing
    · rfl
    · unfold quantize
      simp only [if_true, if_pos h]

/-- Witness for C7: four quarter notes exactly filling a measure of duration 1,
with quantizing enabled. -/
theorem c7_quantize_noop_witness :
    (((true : Bool) = false) ∨ (c7Notes.map ANote.dur).sum = 1) ∧
    quantize true c7Notes 1 = .ok (c7Notes, none) :=
  ⟨Or.inr (by norm_num [c7Notes, ANote.dur]),
    c7_quantize_noop true c7Notes 1 (Or.inr (by norm_num [c7Notes, ANote.dur]))⟩

/-- C9: the claim says every member of the duration enumeration is `1 / 2^k` for
some `k ≤ 6`.  The sixteenth, thirty-second and sixty-fourth values are
`0.00625 = 1/160`, `0.0003125 = 1/3200` and `0.000015625 = 1/64000`; in
particular the sixteenth differs from every power-of-two fraction
`1, 1/2, 1/4, 1/8, 1/16, 1/32, 1/64`. -/
theorem c9_notedur_values_bug :
    NoteDur.val .SIXTEENTH = 1/160 ∧
    NoteDur.val .THIRTYSECOND = 1/3200 ∧
    NoteDur.val .SIXTYFOURTH = 1/64000 ∧
    NoteDur.val .SIXTEENTH ≠ 1 ∧ NoteDur.val .SIXTEENTH ≠ 1/2 ∧
    NoteDur.val .SIXTEENTH ≠ 1/4 ∧ NoteDur.val .SIXTEENTH ≠ 1/8 ∧
    NoteDur.val .SIXTEENTH ≠ 1/16 ∧ NoteDur.val .SIXTEENTH ≠ 1/32 ∧
    NoteDur.val .SIXTEENTH ≠ 1/64 := by
  norm_num [NoteDur.val]

end Aleatoric
